import Mathlib

/-
  Verification of the job-matching core of the `job-scraper` repository
  (src/jobmatch_app.py and src/jobmatch.py) against its specification.

  The Python source is shallowly embedded below: strings become `String`,
  Python floats (whose values here are always finite decimal fractions and
  their quotients) become `Rat`, regular-expression searches are embedded as
  deterministic left-to-right matchers that were derived pattern by pattern
  from the concrete regexes in the source (each of which is backtracking-free
  on the relevant alternatives, as argued in comments), and the in-place
  mutation `job.similarity = ...` is embedded by returning an updated record.
-/

/-! ### Character and string utilities (ASCII semantics of the Python text ops) -/

/-- `c` is an ASCII uppercase letter. -/
def isUpperB (c : Char) : Bool := decide ('A' ≤ c ∧ c ≤ 'Z')

/-- `c` is an ASCII lowercase letter. -/
def isLowerB (c : Char) : Bool := decide ('a' ≤ c ∧ c ≤ 'z')

/-- `c` is an ASCII digit. -/
def isDigitB (c : Char) : Bool := decide ('0' ≤ c ∧ c ≤ '9')

/-- The characters matched by Python's `\s` (ASCII range), and by `str.split()`. -/
def isPySpace (c : Char) : Bool :=
  c == ' ' || c == '\t' || c == '\n' || c == '\r' || c == '\x0B' || c == '\x0C'

/-- Word characters for Python's `\w` and `\b` (ASCII range). -/
def isWordCharB (c : Char) : Bool :=
  isLowerB c || isUpperB c || isDigitB c || c == '_'

/-- ASCII lowercasing of one character (Python `str.lower`, ASCII range). -/
def lowerChar (c : Char) : Char :=
  if isUpperB c then Char.ofNat (c.toNat + 32) else c

/-- ASCII lowercasing of a string (Python `str.lower`, ASCII range). -/
def asciiLower (s : String) : String := String.mk (s.data.map lowerChar)

/-- Does `pat` occur as a literal prefix of `l`? -/
def litAt : List Char → List Char → Bool
  | [], _ => true
  | _ :: _, [] => false
  | p :: ps, c :: cs => p == c && litAt ps cs

/-- Does `pat` occur as a contiguous sublist of `l`? (Python `pat in l`.) -/
def containsSubL (pat : List Char) : List Char → Bool
  | [] => pat.isEmpty
  | c :: cs => litAt pat (c :: cs) || containsSubL pat cs

/-- Python's substring test `needle in hay`. -/
def containsSub (needle hay : String) : Bool := containsSubL needle.data hay.data

/-- Consume a literal; return the remaining characters on success. -/
def litRest : List Char → List Char → Option (List Char)
  | [], l => some l
  | _ :: _, [] => none
  | p :: ps, c :: cs => if p == c then litRest ps cs else none

/-- Consume `\s*` (maximal run of whitespace). -/
def dropSpacesL (l : List Char) : List Char := l.dropWhile isPySpace

/-- Numeric value of a digit run (Python `int` of the captured group). -/
def digitsToNat (ds : List Char) : Nat :=
  ds.foldl (fun n c => 10 * n + (c.toNat - 48)) 0

/-- Python `str.split()`: maximal nonempty chunks between whitespace. -/
def splitWsL (s : String) : List (List Char) :=
  (s.data.splitOnP isPySpace).filter (fun r => !r.isEmpty)

/-! ### Regex-pattern literals used by the matchers -/

def yearL : List Char := "year".data

def yearsFullL : List Char := "years".data

def ofL : List Char := "of".data

def experienceL : List Char := "experience".data

def seniorL : List Char := "senior".data

def levelL : List Char := "level".data

def workedL : List Char := "worked".data

def workingL : List Char := "working".data

def forL : List Char := "for".data

def sinceL : List Char := "since".data

/-! ### `JobMatcher.calculate_experience_match` (src/jobmatch_app.py:288-323)

The three requirement-extraction regexes, embedded as position matchers.
Each is deterministic: wherever the Python regex engine could backtrack
(greedy `\d+`, `\s*`, optional groups), the greedy choice is forced because
the character class that follows is disjoint from the one being repeated. -/

/-- Matcher for `(\d+)\+?\s*(?:-\s*\d+)?\s*years?` at the head of `l`. -/
def matchP1At (l : List Char) : Option Nat :=
  let ds := l.takeWhile isDigitB
  if ds.isEmpty then none else
  let r1 := l.dropWhile isDigitB
  let r2 := match r1 with
    | '+' :: t => t
    | _ => r1
  let r3 := dropSpacesL r2
  let r4 := match r3 with
    | '-' :: t =>
      let t2 := dropSpacesL t
      if (t2.takeWhile isDigitB).isEmpty then r3 else t2.dropWhile isDigitB
    | _ => r3
  if (litRest yearL (dropSpacesL r4)).isSome then some (digitsToNat ds) else none

/-- Matcher for `(\d+)\s*years?\s*(?:of)?\s*experience` at the head of `l`. -/
def matchP2At (l : List Char) : Option Nat :=
  let ds := l.takeWhile isDigitB
  if ds.isEmpty then none else
  let r1 := dropSpacesL (l.dropWhile isDigitB)
  match litRest yearL r1 with
  | none => none
  | some r2 =>
    let r3 := match r2 with
      | 's' :: t => t
      | _ => r2
    let r4 := dropSpacesL r3
    let r5 := match litRest ofL r4 with
      | some t => t
      | none => r4
    if (litRest experienceL (dropSpacesL r5)).isSome then some (digitsToNat ds) else none

/-- Matcher for `(\d+)\s*years?` at the head of `l` (tail of the third pattern). -/
def matchNumYearAt (l : List Char) : Option Nat :=
  let ds := l.takeWhile isDigitB
  if ds.isEmpty then none else
  if (litRest yearL (dropSpacesL (l.dropWhile isDigitB))).isSome then
    some (digitsToNat ds)
  else none

/-- The lazy `.*?(\d+)\s*years?`: earliest match position, `.` not crossing a newline. -/
def searchNumYearNoNl : List Char → Option Nat
  | [] => none
  | c :: cs =>
    match matchNumYearAt (c :: cs) with
    | some n => some n
    | none => if c == '\n' then none else searchNumYearNoNl cs

/-- Matcher for `senior\s*level.*?(\d+)\s*years?` at the head of `l`. -/
def matchP3At (l : List Char) : Option Nat :=
  match litRest seniorL l with
  | none => none
  | some r1 =>
    match litRest levelL (dropSpacesL r1) with
    | none => none
    | some r2 => searchNumYearNoNl r2

/-- `re.search`: try the position matcher at each position, leftmost wins. -/
def searchFrom (m : List Char → Option Nat) : List Char → Option Nat
  | [] => none
  | c :: cs =>
    match m (c :: cs) with
    | some n => some n
    | none => searchFrom m cs

/-- The `for pattern in patterns` loop of `calculate_experience_match`:
first pattern that matches anywhere in the lowercased job text wins. -/
def extractRequiredExp (job_text : String) : Option Nat :=
  let l := (asciiLower job_text).data
  match searchFrom matchP1At l with
  | some n => some n
  | none =>
    match searchFrom matchP2At l with
    | some n => some n
    | none => searchFrom matchP3At l

/-- The tail of `calculate_experience_match`: grade by `abs(user - required)`,
or the neutral 0.5 when no requirement information was found at all. -/
def expDiffPart (user_experience : Nat) (req : Option Nat) : Rat :=
  match req with
  | none => 0.5
  | some r =>
    if Nat.dist user_experience r = 0 then 1
    else if Nat.dist user_experience r ≤ 2 then 0.8
    else if Nat.dist user_experience r ≤ 4 then 0.6
    else 0.4

/-- `JobMatcher.calculate_experience_match` (src/jobmatch_app.py:288-323). -/
def calculate_experience_match (user_experience : Nat) (job_text : String) : Rat :=
  let lt := asciiLower job_text
  let req : Option Nat :=
    match extractRequiredExp job_text with
    | some n => some n
    | none =>
      if containsSub "senior" lt then some 5
      else if containsSub "mid" lt then some 3
      else if containsSub "junior" lt || containsSub "entry" lt then some 0
      else none
  expDiffPart user_experience req

/-! ### `ResumeParser.parse_resume` experience extraction (src/jobmatch_app.py:94-104) -/

/-- Matcher for `(\d+)\s*(?:\+\s*)?years?(?:\s+of)?\s+experience` at the head of `l`. -/
def matchR1At (l : List Char) : Option Nat :=
  let ds := l.takeWhile isDigitB
  if ds.isEmpty then none else
  let r1 := dropSpacesL (l.dropWhile isDigitB)
  let r2 := match r1 with
    | '+' :: t => dropSpacesL t
    | _ => r1
  match litRest yearL r2 with
  | none => none
  | some r3 =>
    let r4 := match r3 with
      | 's' :: t => t
      | _ => r3
    match r4 with
    | [] => none
    | c :: _ =>
      if isPySpace c then
        let r5 := dropSpacesL r4
        match litRest ofL r5 with
        | some r6 =>
          match r6 with
          | [] => none
          | d :: _ =>
            if isPySpace d then
              if (litRest experienceL (dropSpacesL r6)).isSome then
                some (digitsToNat ds)
              else none
            else none
        | none =>
          if (litRest experienceL r5).isSome then some (digitsToNat ds) else none
      else none

/-- Matcher for `(?:worked|working)\s+(?:for|since)\s+(\d+)\s+years` at the head of `l`. -/
def matchR2At (l : List Char) : Option Nat :=
  let r0 : Option (List Char) :=
    match litRest workedL l with
    | some t => some t
    | none => litRest workingL l
  match r0 with
  | none => none
  | some t =>
    match t with
    | [] => none
    | c :: _ =>
      if isPySpace c then
        let t1 := dropSpacesL t
        let r1 : Option (List Char) :=
          match litRest forL t1 with
          | some u => some u
          | none => litRest sinceL t1
        match r1 with
        | none => none
        | some u =>
          match u with
          | [] => none
          | d :: _ =>
            if isPySpace d then
              let u1 := dropSpacesL u
              let ds := u1.takeWhile isDigitB
              if ds.isEmpty then none else
              match u1.dropWhile isDigitB with
              | [] => none
              | e :: _ =>
                if isPySpace e then
                  if (litRest yearsFullL (dropSpacesL (u1.dropWhile isDigitB))).isSome then
                    some (digitsToNat ds)
                  else none
                else none
            else none
      else none

/-- The experience extraction of `ResumeParser.parse_resume`: the ordered
pattern list is tried with `re.search(..., re.IGNORECASE)`; the first pattern
that matches anywhere wins; the default is 0. -/
def extract_experience_resume (text : String) : Nat :=
  let l := (asciiLower text).data
  match searchFrom matchR1At l with
  | some n => n
  | none =>
    match searchFrom matchR2At l with
    | some n => n
    | none => 0

/-! ### `JobMatcher.preprocess_text` (src/jobmatch_app.py:248-267) -/

/-- A character of the normal form produced by the first `re.sub`:
lowercase alphanumeric or whitespace. -/
def isCleanChar (c : Char) : Bool := isLowerB c || isDigitB c || isPySpace c

/-- One character of `re.sub(r'[^a-zA-Z0-9\s]', ' ', text.lower())`. -/
def step1Char (c : Char) : Char :=
  let c1 := lowerChar c
  if isCleanChar c1 then c1 else ' '

/-- `re.sub(r'[^a-zA-Z0-9\s]', ' ', text.lower())`, characterwise. -/
def step1 (l : List Char) : List Char := l.map step1Char

def yrW : List Char := "yr".data

def yrsW : List Char := "yrs".data

def yearsW : List Char := "years".data

def seniorW : List Char := "senior".data

def juniorW : List Char := "junior".data

def expW : List Char := "exp".data

def experienceW : List Char := "experience".data

def devW : List Char := "dev".data

def developerW : List Char := "developer".data

def engW : List Char := "eng".data

def engineerW : List Char := "engineer".data

def mgrW : List Char := "mgr".data

def managerW : List Char := "manager".data

/-- The seven `\b(...)\b` substitutions of `preprocess_text`, applied in order,
restricted to one word token.  Each pattern is an alternation of word-character
literals enclosed in `\b..\b`, so on the alphanumeric-and-whitespace output of
the first substitution a match is exactly a whole token equal to one
alternative.  The alternatives `sr\.` and `jr\.` contain a dot and therefore
can never match a token here (the first substitution has removed every dot),
leaving the identity substitutions for `senior` and `junior`. -/
def tokenF (w : List Char) : List Char :=
  let w1 := if w = yrW ∨ w = yrsW ∨ w = yearsW then yearsW else w
  let w2 := if w1 = seniorW then seniorW else w1
  let w3 := if w2 = juniorW then juniorW else w2
  let w4 := if w3 = expW ∨ w3 = experienceW then experienceW else w3
  let w5 := if w4 = devW ∨ w4 = developerW then developerW else w4
  let w6 := if w5 = engW ∨ w5 = engineerW then engineerW else w5
  if w6 = mgrW ∨ w6 = managerW then managerW else w6

theorem length_dropWhile_le (p : Char → Bool) (l : List Char) :
    (l.dropWhile p).length ≤ l.length := by
  induction l with
  | nil => simp [List.dropWhile]
  | cons c cs ih =>
    by_cases h : p c
    · simp only [List.dropWhile, h]
      exact Nat.le_succ_of_le ih
    · simp [List.dropWhile, h]

/-- Worker for `mapTokens`: `cur` holds the reversed current word run. -/
def mapTokensGo (f : List Char → List Char) (cur : List Char) : List Char → List Char
  | [] => if cur = [] then [] else f cur.reverse
  | c :: cs =>
    if isWordCharB c then mapTokensGo f (c :: cur) cs
    else (if cur = [] then [] else f cur.reverse) ++ c :: mapTokensGo f [] cs

/-- Apply a whole-token substitution to every maximal word-character run,
leaving delimiter characters in place.  This is the action of a global
`re.sub(r'\b(alt)\b', rep, text)` whose alternatives are word-literals. -/
def mapTokens (f : List Char → List Char) (l : List Char) : List Char :=
  mapTokensGo f [] l

/-- `JobMatcher.preprocess_text` (src/jobmatch_app.py:248-267). -/
def preprocess_text (s : String) : String :=
  String.mk (mapTokens tokenF (step1 s.data))

/-! ### Data model (the dataclasses of src/jobmatch_app.py) -/

/-- `ResumeData` (src/jobmatch_app.py:26-32). -/
structure ResumeData where
  skills : List String
  experience : Nat
  education : String
  text : String

/-- `JobPosting` (src/jobmatch_app.py:34-44).  `similarity` defaults to 0.0 in
the source and is overwritten by `match_jobs`. -/
structure JobPosting where
  title : String
  company : String
  location : String
  link : String
  posted_date : String
  experience : String
  preference : String
  similarity : Rat
deriving DecidableEq

/-! ### `JobMatcher.calculate_skill_match_score` (src/jobmatch_app.py:221-286) -/

def technicalSkills : List String :=
  ["python", "java", "sql", "aws", "azure", "docker", "kubernetes",
   "react", "javascript", "machine learning", "data analysis"]

def softSkills : List String :=
  ["leadership", "communication", "teamwork", "problem solving",
   "project management", "agile", "scrum"]

def domainSkills : List String :=
  ["healthcare", "finance", "marketing", "sales", "consulting",
   "manufacturing", "retail", "education"]

def certificationSkills : List String :=
  ["pmp", "aws certified", "cissp", "cpa", "six sigma",
   "scrum master", "professional certified"]

/-- `skill_weights` paired with `skill_categories`, in the dictionary's
insertion order (src/jobmatch_app.py:221-246). -/
def catTable : List (Rat × List String) :=
  [(1.5, technicalSkills), (1.2, softSkills), (1.3, domainSkills),
   (1.4, certificationSkills)]

/-- `set(skill for skill in resume_skills if skill.lower() in category_skills)`:
the distinct resume skills whose lowercase form is in the category vocabulary. -/
def skillsInVocab (skills : List String) (vocab : List String) : List String :=
  (skills.filter (fun s => vocab.contains (asciiLower s))).dedup

/-- One iteration of the category loop of `calculate_skill_match_score`:
accumulates `(total_weight, matched_weight)`. -/
def skillStep (skills : List String) (jobLower : String) (acc : Rat × Rat)
    (cat : Rat × List String) : Rat × Rat :=
  let relevant := skillsInVocab skills cat.2
  if relevant = [] then acc
  else
    (acc.1 + cat.1,
     acc.2 + ((relevant.countP (fun s => containsSub (asciiLower s) jobLower) : Rat)
              / (relevant.length : Rat)) * cat.1)

/-- `JobMatcher.calculate_skill_match_score` (src/jobmatch_app.py:269-286). -/
def calculate_skill_match_score (resume_skills : List String) (job_text : String) : Rat :=
  let jl := asciiLower job_text
  let acc := catTable.foldl (skillStep resume_skills jl) (0, 0)
  if 0 < acc.1 then acc.2 / acc.1 else 0

/-! ### `JobMatcher.calculate_location_match` (src/jobmatch_app.py:325-346) -/

/-- `set(preferred.split()) & set(actual.split())` is nonempty. -/
def sharesToken (p a : String) : Bool :=
  (splitWsL p).any (fun t => (splitWsL a).contains t)

/-- `JobMatcher.calculate_location_match` (src/jobmatch_app.py:325-346). -/
def calculate_location_match (preferred_location job_location : String) : Rat :=
  let p := asciiLower preferred_location
  let a := asciiLower job_location
  if containsSub p a || containsSub a p then 1
  else if sharesToken p a then 0.8
  else if containsSub "remote" a then 0.7
  else 0.3

/-! ### `JobMatcher.match_jobs` (src/jobmatch_app.py:348-388)

The TF-IDF content similarity is computed by the external sklearn library
(`self.vectorizer.fit_transform` + `cosine_similarity`, guarded by
`try/except` that defaults to 0); the pipeline is therefore parameterized by
the content-score function.  A separate model of that engine, built from the
spec, appears further below for claim C7. -/

/-- The job text assembled and preprocessed at src/jobmatch_app.py:353-355. -/
def jobTextOf (job : JobPosting) : String :=
  preprocess_text (job.title ++ " " ++ job.company ++ " " ++ job.location
                   ++ " " ++ job.experience)

/-- The body of the scoring loop of `match_jobs`: computes the four sub-scores,
the weighted final score clamped at 1.0, and writes it into the posting's
`similarity` field (the source mutates `job.similarity` in place). -/
def scoreJob (content : String → String → Rat) (resume_data : ResumeData)
    (user_experience : Nat) (location_pref : String) (job : JobPosting) : JobPosting :=
  let job_text := jobTextOf job
  let skill_score := calculate_skill_match_score resume_data.skills job_text
  let exp_score := calculate_experience_match user_experience job_text
  let location_score := calculate_location_match location_pref job.location
  let content_score := content (String.intercalate " " resume_data.skills) job_text
  let final_score := skill_score * 0.4 + exp_score * 0.25
                     + location_score * 0.15 + content_score * 0.2
  { job with similarity := min 1 final_score }

/-- `sorted(jobs, key=lambda x: x.similarity, reverse=True)` is a stable
descending sort; insertion before the first element of not-larger score is
extensionally the same stable sort. -/
def insertDesc (x : JobPosting) : List JobPosting → List JobPosting
  | [] => [x]
  | y :: ys => if y.similarity ≤ x.similarity then x :: y :: ys else y :: insertDesc x ys

/-- Stable descending sort by `similarity`. -/
def sortDesc : List JobPosting → List JobPosting
  | [] => []
  | x :: xs => insertDesc x (sortDesc xs)

/-- `JobMatcher.match_jobs` (src/jobmatch_app.py:348-388). -/
def match_jobs (content : String → String → Rat) (resume_data : ResumeData)
    (jobs : List JobPosting) (user_experience : Nat) (location_pref : String) :
    List JobPosting :=
  sortDesc (jobs.map (scoreJob content resume_data user_experience location_pref))

/-! ### Basic bounds for the sub-scores -/

theorem expDiffPart_nonneg (u : Nat) (o : Option Nat) : 0 ≤ expDiffPart u o := by
  cases o with
  | none => simp only [expDiffPart]; norm_num
  | some r => simp only [expDiffPart]; split_ifs <;> norm_num

theorem expDiffPart_le_one (u : Nat) (o : Option Nat) : expDiffPart u o ≤ 1 := by
  cases o with
  | none => simp only [expDiffPart]; norm_num
  | some r => simp only [expDiffPart]; split_ifs <;> norm_num

theorem exp_match_nonneg (u : Nat) (t : String) : 0 ≤ calculate_experience_match u t := by
  unfold calculate_experience_match
  exact expDiffPart_nonneg _ _

theorem exp_match_le_one (u : Nat) (t : String) : calculate_experience_match u t ≤ 1 := by
  unfold calculate_experience_match
  exact expDiffPart_le_one _ _

theorem loc_match_cases (p l : String) :
    calculate_location_match p l = 1 ∨ calculate_location_match p l = 0.8 ∨
    calculate_location_match p l = 0.7 ∨ calculate_location_match p l = 0.3 := by
  unfold calculate_location_match
  dsimp only
  split_ifs <;> simp

theorem loc_match_nonneg (p l : String) : 0 ≤ calculate_location_match p l := by
  rcases loc_match_cases p l with h | h | h | h <;> rw [h] <;> norm_num

theorem loc_match_le_one (p l : String) : calculate_location_match p l ≤ 1 := by
  rcases loc_match_cases p l with h | h | h | h <;> rw [h] <;> norm_num

/-! ### The skill-score fold: bounds and closed form -/

theorem catTable_weights_pos : ∀ c ∈ catTable, 0 < c.1 := by
  intro c hc
  simp only [catTable, List.mem_cons, List.not_mem_nil, or_false] at hc
  rcases hc with rfl | rfl | rfl | rfl <;> norm_num

theorem skillStep_bounds (skills : List String) (jl : String) (acc : Rat × Rat)
    (cat : Rat × List String) (hc : 0 < cat.1) (h0 : 0 ≤ acc.2) (h1 : acc.2 ≤ acc.1) :
    0 ≤ (skillStep skills jl acc cat).2 ∧
    (skillStep skills jl acc cat).2 ≤ (skillStep skills jl acc cat).1 := by
  unfold skillStep
  dsimp only
  by_cases he : skillsInVocab skills cat.2 = []
  · rw [if_pos he]
    exact ⟨h0, h1⟩
  · have hlen : 0 < ((skillsInVocab skills cat.2).length : Rat) := by
      exact_mod_cast List.length_pos.mpr he
    have hratio0 : 0 ≤ ((skillsInVocab skills cat.2).countP
        (fun s => containsSub (asciiLower s) jl) : Rat) /
        ((skillsInVocab skills cat.2).length : Rat) := by
      positivity
    have hratio1 : ((skillsInVocab skills cat.2).countP
        (fun s => containsSub (asciiLower s) jl) : Rat) /
        ((skillsInVocab skills cat.2).length : Rat) ≤ 1 := by
      rw [div_le_one hlen]
      exact_mod_cast List.countP_le_length _
    rw [if_neg he]
    refine ⟨add_nonneg h0 (mul_nonneg hratio0 hc.le), add_le_add h1 ?_⟩
    exact mul_le_of_le_one_left hc.le hratio1

theorem skillFold_bounds (skills : List String) (jl : String) :
    ∀ (cats : List (Rat × List String)) (acc : Rat × Rat),
      (∀ c ∈ cats, 0 < c.1) → 0 ≤ acc.2 → acc.2 ≤ acc.1 →
      0 ≤ (cats.foldl (skillStep skills jl) acc).2 ∧
      (cats.foldl (skillStep skills jl) acc).2 ≤ (cats.foldl (skillStep skills jl) acc).1 := by
  intro cats
  induction cats with
  | nil => intro acc _ h0 h1; exact ⟨h0, h1⟩
  | cons c cs ih =>
    intro acc hw h0 h1
    simp only [List.foldl_cons]
    have hb := skillStep_bounds skills jl acc c (hw c (List.mem_cons_self c cs)) h0 h1
    exact ih _ (fun d hd => hw d (List.mem_cons_of_mem _ hd)) hb.1 hb.2

theorem skill_match_nonneg (skills : List String) (t : String) :
    0 ≤ calculate_skill_match_score skills t := by
  unfold calculate_skill_match_score
  dsimp only
  have h := skillFold_bounds skills (asciiLower t) catTable (0, 0)
    catTable_weights_pos le_rfl le_rfl
  split_ifs with hpos
  · exact div_nonneg h.1 hpos.le
  · exact le_rfl

theorem skill_match_le_one (skills : List String) (t : String) :
    calculate_skill_match_score skills t ≤ 1 := by
  unfold calculate_skill_match_score
  dsimp only
  have h := skillFold_bounds skills (asciiLower t) catTable (0, 0)
    catTable_weights_pos le_rfl le_rfl
  split_ifs with hpos
  · rw [div_le_one hpos]
    exact h.2
  · norm_num

/-! ### The spec-side description of the skill score (claim C4) -/

/-- The claim's side condition: the candidate has at least one skill in the
category's vocabulary. -/
def hasRelevant (skills : List String) (vocab : List String) : Bool :=
  skills.any (fun s => vocab.contains (asciiLower s))

/-- The claim's matched fraction for one category: matched-in-job-text skills
over the number of relevant (distinct) candidate skills. -/
def matchedFrac (skills : List String) (jobLower : String) (vocab : List String) : Rat :=
  ((skillsInVocab skills vocab).countP (fun s => containsSub (asciiLower s) jobLower) : Rat)
  / ((skillsInVocab skills vocab).length : Rat)

/-- The claim's `totalWeight`. -/
def totalWeightSpec (skills : List String) : Rat :=
  (catTable.map (fun c => if hasRelevant skills c.2 then c.1 else 0)).sum

/-- The claim's `matchedWeight`. -/
def matchedWeightSpec (skills : List String) (job_text : String) : Rat :=
  (catTable.map (fun c =>
    if hasRelevant skills c.2 then matchedFrac skills (asciiLower job_text) c.2 * c.1
    else 0)).sum

theorem skillsInVocab_eq_nil_iff (skills vocab : List String) :
    skillsInVocab skills vocab = [] ↔ hasRelevant skills vocab = false := by
  unfold skillsInVocab hasRelevant
  rw [List.dedup_eq_nil, List.filter_eq_nil_iff, List.any_eq_false]

theorem skillFold_closed (skills : List String) (jl : String) :
    ∀ (cats : List (Rat × List String)) (acc : Rat × Rat),
      cats.foldl (skillStep skills jl) acc =
        (acc.1 + (cats.map (fun c => if hasRelevant skills c.2 then c.1 else 0)).sum,
         acc.2 + (cats.map (fun c =>
           if hasRelevant skills c.2 then matchedFrac skills jl c.2 * c.1 else 0)).sum) := by
  intro cats
  induction cats with
  | nil => intro acc; simp
  | cons c cs ih =>
    intro acc
    simp only [List.foldl_cons, List.map_cons, List.sum_cons]
    rw [ih]
    unfold skillStep
    dsimp only
    by_cases h : hasRelevant skills c.2 = false
    · rw [if_pos ((skillsInVocab_eq_nil_iff skills c.2).mpr h), h]
      simp only [Bool.false_eq_true, if_false, Prod.mk.injEq]
      exact ⟨by ring, by ring⟩
    · have ht : hasRelevant skills c.2 = true := by
        revert h; cases hasRelevant skills c.2 <;> simp
      have hne : skillsInVocab skills c.2 ≠ [] := by
        rw [Ne, skillsInVocab_eq_nil_iff, ht]
        simp
      rw [if_neg hne, ht]
      simp only [if_true, Prod.mk.injEq]
      unfold matchedFrac
      exact ⟨by ring, by ring⟩

theorem skillFold_catTable (skills : List String) (t : String) :
    catTable.foldl (skillStep skills (asciiLower t)) (0, 0) =
      (totalWeightSpec skills, matchedWeightSpec skills t) := by
  rw [skillFold_closed]
  unfold totalWeightSpec matchedWeightSpec
  simp

theorem totalWeightSpec_nonneg (skills : List String) : 0 ≤ totalWeightSpec skills := by
  unfold totalWeightSpec
  apply List.sum_nonneg
  intro x hx
  obtain ⟨c, hc, rfl⟩ := List.mem_map.mp hx
  have := catTable_weights_pos c hc
  split_ifs
  · exact this.le
  · exact le_rfl

/-- C4: the skill-match score is the coverage-weighted ratio
`matchedWeight / totalWeight` over the four fixed categories (with weights
technical 1.5, soft 1.2, domain 1.3, certification 1.4): a category
contributes its weight to `totalWeight` exactly when the candidate has at
least one skill in its vocabulary, and contributes
`(matched-in-job-text / relevant) * weight` to `matchedWeight`; the score is
0 when `totalWeight` is 0, and it always lies in [0, 1]. -/
theorem c4_skill_score (skills : List String) (t : String) :
    calculate_skill_match_score skills t =
      (if totalWeightSpec skills = 0 then 0
       else matchedWeightSpec skills t / totalWeightSpec skills)
    ∧ catTable.map (fun c => c.1) = [1.5, 1.2, 1.3, 1.4]
    ∧ 0 ≤ calculate_skill_match_score skills t
    ∧ calculate_skill_match_score skills t ≤ 1 := by
  refine ⟨?_, rfl, skill_match_nonneg skills t, skill_match_le_one skills t⟩
  unfold calculate_skill_match_score
  dsimp only
  rw [skillFold_catTable]
  dsimp only
  rcases (totalWeightSpec_nonneg skills).lt_or_eq with h | h
  · rw [if_pos h, if_neg h.ne']
  · rw [if_neg (by rw [← h]; exact lt_irrefl 0), if_pos h.symm]

/-! ### The ranker: stable descending sort (claim C3) -/

theorem insertDesc_perm (x : JobPosting) (l : List JobPosting) :
    (insertDesc x l).Perm (x :: l) := by
  induction l with
  | nil => exact List.Perm.refl _
  | cons y ys ih =>
    unfold insertDesc
    split_ifs
    · exact List.Perm.refl _
    · exact (ih.cons y).trans (List.Perm.swap x y ys)

theorem sortDesc_perm (l : List JobPosting) : (sortDesc l).Perm l := by
  induction l with
  | nil => exact List.Perm.refl _
  | cons x xs ih =>
    unfold sortDesc
    exact (insertDesc_perm x (sortDesc xs)).trans (ih.cons x)

theorem mem_insertDesc (a x : JobPosting) (l : List JobPosting) :
    a ∈ insertDesc x l ↔ a = x ∨ a ∈ l := by
  rw [(insertDesc_perm x l).mem_iff, List.mem_cons]

theorem pairwise_insertDesc (x : JobPosting) (l : List JobPosting)
    (h : List.Pairwise (fun a b => b.similarity ≤ a.similarity) l) :
    List.Pairwise (fun a b => b.similarity ≤ a.similarity) (insertDesc x l) := by
  induction l with
  | nil => simp [insertDesc]
  | cons y ys ih =>
    rw [List.pairwise_cons] at h
    unfold insertDesc
    split_ifs with hc
    · rw [List.pairwise_cons]
      refine ⟨?_, List.pairwise_cons.mpr h⟩
      intro z hz
      rcases List.mem_cons.mp hz with rfl | hz
      · exact hc
      · exact le_trans (h.1 z hz) hc
    · rw [List.pairwise_cons]
      refine ⟨?_, ih h.2⟩
      intro z hz
      rcases (mem_insertDesc z x ys).mp hz with rfl | hz
      · exact (le_of_not_le hc)
      · exact h.1 z hz

theorem sortDesc_pairwise (l : List JobPosting) :
    List.Pairwise (fun a b => b.similarity ≤ a.similarity) (sortDesc l) := by
  induction l with
  | nil => simp [sortDesc]
  | cons x xs ih => exact pairwise_insertDesc x (sortDesc xs) ih

theorem filter_insertDesc (x : JobPosting) (l : List JobPosting) (s : Rat) :
    (insertDesc x l).filter (fun j => j.similarity == s) =
      if x.similarity == s then x :: l.filter (fun j => j.similarity == s)
      else l.filter (fun j => j.similarity == s) := by
  induction l with
  | nil => simp [insertDesc, List.filter_singleton, beq_iff_eq]
  | cons y ys ih =>
    unfold insertDesc
    by_cases hc : y.similarity ≤ x.similarity
    · rw [if_pos hc]
      by_cases hx : x.similarity = s
      · simp [List.filter_cons, hx]
      · simp [List.filter_cons, hx]
    · rw [if_neg hc]
      by_cases hy : y.similarity = s
      · have hx : ¬ x.similarity = s := by
          intro hx
          exact hc (le_of_eq (hy.trans hx.symm))
        simp [List.filter_cons, hy, hx, ih]
      · by_cases hx : x.similarity = s
        · simp [List.filter_cons, hy, hx, ih]
        · simp [List.filter_cons, hy, hx, ih]

theorem filter_sortDesc (l : List JobPosting) (s : Rat) :
    (sortDesc l).filter (fun j => j.similarity == s) =
      l.filter (fun j => j.similarity == s) := by
  induction l with
  | nil => rfl
  | cons x xs ih =>
    unfold sortDesc
    rw [filter_insertDesc]
    by_cases hx : x.similarity = s
    · simp [List.filter_cons, hx, ih]
    · simp [List.filter_cons, hx, ih]

/-- C3: ranking returns the same postings (a permutation of the input, so
none added and none removed), sorted in non-increasing order of final score,
and postings with equal final scores keep their original relative order
(stable descending sort): for every score value, the sublist of postings
carrying that score is unchanged. -/
theorem c3_ranking_stable (l : List JobPosting) :
    (sortDesc l).Perm l
    ∧ List.Pairwise (fun a b => b.similarity ≤ a.similarity) (sortDesc l)
    ∧ ∀ s : Rat, (sortDesc l).filter (fun j => j.similarity == s) =
        l.filter (fun j => j.similarity == s) :=
  ⟨sortDesc_perm l, sortDesc_pairwise l, fun s => filter_sortDesc l s⟩

/-! ### Claim C5: the location sub-score -/

/-- C5: the location score is 1.0 on a (case-insensitive) substring match in
either direction, else 0.8 when a whitespace-delimited token is shared, else
0.7 when the job location contains "remote", else exactly 0.3; in particular
it is never 0. -/
theorem c5_location_score (p l : String) :
    calculate_location_match p l =
      (if containsSub (asciiLower p) (asciiLower l)
          || containsSub (asciiLower l) (asciiLower p) then 1
       else if sharesToken (asciiLower p) (asciiLower l) then 0.8
       else if containsSub "remote" (asciiLower l) then 0.7
       else 0.3)
    ∧ calculate_location_match p l ≠ 0 := by
  constructor
  · rfl
  · rcases loc_match_cases p l with h | h | h | h <;> rw [h] <;> norm_num

/-! ### Claim C2: the experience sub-score -/

/-- The difference-graded score on an extracted or implied requirement. -/
theorem expDiffPart_some (u r : Nat) :
    expDiffPart u (some r) =
      if u = r then 1 else if Nat.dist u r ≤ 2 then 0.8
      else if Nat.dist u r ≤ 4 then 0.6 else 0.4 := by
  simp only [expDiffPart]
  by_cases hu : u = r
  · subst hu
    simp [Nat.dist_self]
  · rw [if_neg (fun hz => hu (Nat.eq_of_dist_eq_zero hz)), if_neg hu]

/-- C2 (amended): the sub-score is graded by the absolute difference between
the candidate's experience and a required value.  When one of the ordered
numeric regex patterns matches the job text (first match wins, they take
priority), the requirement is the extracted number; otherwise the implied
requirement is 5 for "senior", 3 for "mid", 0 for "junior"/"entry".  The
score is 1.0 at distance 0, 0.8 at distance ≤ 2, 0.6 at distance ≤ 4, and
0.4 beyond; with no requirement information at all it is the neutral 0.5. -/
theorem c2_amended_experience_score (u : Nat) (t : String) :
    (∀ n, extractRequiredExp t = some n →
      calculate_experience_match u t =
        (if u = n then 1 else if Nat.dist u n ≤ 2 then 0.8
         else if Nat.dist u n ≤ 4 then 0.6 else 0.4))
    ∧ (extractRequiredExp t = none →
      calculate_experience_match u t =
        if containsSub "senior" (asciiLower t) then
          (if u = 5 then 1 else if Nat.dist u 5 ≤ 2 then 0.8
           else if Nat.dist u 5 ≤ 4 then 0.6 else 0.4)
        else if containsSub "mid" (asciiLower t) then
          (if u = 3 then 1 else if Nat.dist u 3 ≤ 2 then 0.8
           else if Nat.dist u 3 ≤ 4 then 0.6 else 0.4)
        else if containsSub "junior" (asciiLower t) || containsSub "entry" (asciiLower t) then
          (if u = 0 then 1 else if u ≤ 2 then 0.8 else if u ≤ 4 then 0.6 else 0.4)
        else 0.5) := by
  constructor
  · intro n h
    unfold calculate_experience_match
    rw [h]
    dsimp only
    exact expDiffPart_some u n
  · intro h
    unfold calculate_experience_match
    rw [h]
    dsimp only
    by_cases h1 : containsSub "senior" (asciiLower t) = true
    · rw [if_pos h1, if_pos h1, expDiffPart_some]
    · rw [if_neg h1, if_neg h1]
      by_cases h2 : containsSub "mid" (asciiLower t) = true
      · rw [if_pos h2, if_pos h2, expDiffPart_some]
      · rw [if_neg h2, if_neg h2]
        by_cases h3 : (containsSub "junior" (asciiLower t) || containsSub "entry" (asciiLower t)) = true
        · rw [if_pos h3, if_pos h3, expDiffPart_some, Nat.dist_zero_right]
        · rw [if_neg h3, if_neg h3]
          rfl

theorem c2_amended_experience_score_witness :
    (extractRequiredExp "requires 4 years" = some 4
      ∧ calculate_experience_match 7 "requires 4 years" = 0.6)
    ∧ (extractRequiredExp "senior" = none
      ∧ calculate_experience_match 7 "senior" = 0.8) :=
  ⟨⟨by decide,
    ((c2_amended_experience_score 7 "requires 4 years").1 4 (by decide)).trans
      (by norm_num [Nat.dist])⟩,
   ⟨by decide,
    ((c2_amended_experience_score 7 "senior").2 (by decide)).trans
      (by norm_num [Nat.dist]; decide)⟩⟩

/-- C2 (counterexample): the claim as stated says that for a job text
containing "senior" and candidate experience ≥ 5 the sub-score is 0.8; the
code returns 1.0 at experience 5 (distance 0 from the implied requirement). -/
theorem c2_counterexample :
    containsSub "senior" (asciiLower "senior") = true
    ∧ (5 : Nat) ≥ 5
    ∧ calculate_experience_match 5 "senior" = 1
    ∧ calculate_experience_match 5 "senior" ≠ 0.8 := by
  have h1 : extractRequiredExp "senior" = none := by decide
  have h2 : containsSub "senior" (asciiLower "senior") = true := by decide
  have h3 : calculate_experience_match 5 "senior" = 1 := by
    unfold calculate_experience_match
    rw [h1]
    dsimp only
    rw [if_pos h2]
    simp [expDiffPart, Nat.dist_self]
  refine ⟨h2, le_refl 5, h3, ?_⟩
  rw [h3]
  norm_num

/-! ### Claim C1: the final weighted score -/

theorem scoreJob_similarity (content : String → String → Rat) (r : ResumeData)
    (e : Nat) (lp : String) (job : JobPosting) :
    (scoreJob content r e lp job).similarity =
      min 1 (calculate_skill_match_score r.skills (jobTextOf job) * 0.4
        + calculate_experience_match e (jobTextOf job) * 0.25
        + calculate_location_match lp job.location * 0.15
        + content (String.intercalate " " r.skills) (jobTextOf job) * 0.2) := rfl

theorem scoreJob_sim_nonneg (content : String → String → Rat) (r : ResumeData)
    (e : Nat) (lp : String) (job : JobPosting)
    (hc : 0 ≤ content (String.intercalate " " r.skills) (jobTextOf job)) :
    0 ≤ (scoreJob content r e lp job).similarity := by
  rw [scoreJob_similarity]
  refine le_min (by norm_num) ?_
  have h1 := skill_match_nonneg r.skills (jobTextOf job)
  have h2 := exp_match_nonneg e (jobTextOf job)
  have h3 := loc_match_nonneg lp job.location
  have w1 : (0 : Rat) ≤ 0.4 := by norm_num
  have w2 : (0 : Rat) ≤ 0.25 := by norm_num
  have w3 : (0 : Rat) ≤ 0.15 := by norm_num
  have w4 : (0 : Rat) ≤ 0.2 := by norm_num
  have := add_nonneg (add_nonneg (add_nonneg (mul_nonneg h1 w1) (mul_nonneg h2 w2))
    (mul_nonneg h3 w3)) (mul_nonneg hc w4)
  linarith

theorem scoreJob_sim_le_one (content : String → String → Rat) (r : ResumeData)
    (e : Nat) (lp : String) (job : JobPosting) :
    (scoreJob content r e lp job).similarity ≤ 1 := by
  rw [scoreJob_similarity]
  exact min_le_left _ _

/-- C1: the final score is the fixed weighted sum
`0.4·skill + 0.25·experience + 0.15·location + 0.2·content` clamped above at
1.0, and (assuming the external cosine similarity lies in [0, 1], which holds
for nonnegative term vectors) the final score of every scored and ranked
posting lies in [0, 1]. -/
theorem c1_final_score (content : String → String → Rat) (resume_data : ResumeData)
    (jobs : List JobPosting) (user_experience : Nat) (location_pref : String)
    (job : JobPosting)
    (hc0 : ∀ a b, 0 ≤ content a b) :
    (scoreJob content resume_data user_experience location_pref job).similarity =
      min 1 (calculate_skill_match_score resume_data.skills (jobTextOf job) * 0.4
        + calculate_experience_match user_experience (jobTextOf job) * 0.25
        + calculate_location_match location_pref job.location * 0.15
        + content (String.intercalate " " resume_data.skills) (jobTextOf job) * 0.2)
    ∧ 0 ≤ (scoreJob content resume_data user_experience location_pref job).similarity
    ∧ (scoreJob content resume_data user_experience location_pref job).similarity ≤ 1
    ∧ ∀ j ∈ match_jobs content resume_data jobs user_experience location_pref,
        0 ≤ j.similarity ∧ j.similarity ≤ 1 := by
  refine ⟨scoreJob_similarity content resume_data user_experience location_pref job,
    scoreJob_sim_nonneg content resume_data user_experience location_pref job (hc0 _ _),
    scoreJob_sim_le_one content resume_data user_experience location_pref job, ?_⟩
  intro j hj
  unfold match_jobs at hj
  have hj2 := (sortDesc_perm _).mem_iff.mp hj
  obtain ⟨jb, _, rfl⟩ := List.mem_map.mp hj2
  exact ⟨scoreJob_sim_nonneg content resume_data user_experience location_pref jb (hc0 _ _),
    scoreJob_sim_le_one content resume_data user_experience location_pref jb⟩

theorem c1_final_score_witness :
    0 ≤ (scoreJob (fun _ _ => 0) (ResumeData.mk ["python"] 3 "b" "t") 3 "nyc"
          (JobPosting.mk "t" "c" "nyc" "k" "d" "e" "p" 0)).similarity
    ∧ (scoreJob (fun _ _ => 0) (ResumeData.mk ["python"] 3 "b" "t") 3 "nyc"
          (JobPosting.mk "t" "c" "nyc" "k" "d" "e" "p" 0)).similarity ≤ 1 :=
  ⟨(c1_final_score (fun _ _ => 0) (ResumeData.mk ["python"] 3 "b" "t") []
      3 "nyc" (JobPosting.mk "t" "c" "nyc" "k" "d" "e" "p" 0)
      (fun _ _ => le_refl 0)).2.1,
   (c1_final_score (fun _ _ => 0) (ResumeData.mk ["python"] 3 "b" "t") []
      3 "nyc" (JobPosting.mk "t" "c" "nyc" "k" "d" "e" "p" 0)
      (fun _ _ => le_refl 0)).2.2.1⟩

/-! ### Equations of `mapTokens` -/

theorem mapTokens_nil (f : List Char → List Char) : mapTokens f [] = [] := rfl

theorem mapTokens_cons_delim (f : List Char → List Char) (c : Char) (cs : List Char)
    (h : isWordCharB c = false) : mapTokens f (c :: cs) = c :: mapTokens f cs := by
  simp [mapTokens, mapTokensGo, h]

theorem mapTokensGo_acc (f : List Char → List Char) :
    ∀ (cs acc : List Char), acc ≠ [] →
      mapTokensGo f acc cs =
        f (acc.reverse ++ cs.takeWhile isWordCharB)
          ++ mapTokensGo f [] (cs.dropWhile isWordCharB) := by
  intro cs
  induction cs with
  | nil =>
    intro acc ha
    simp [mapTokensGo, ha]
  | cons c cs ih =>
    intro acc ha
    by_cases hw : isWordCharB c
    · simp only [mapTokensGo, hw, if_true, List.takeWhile_cons, List.dropWhile_cons]
      rw [ih (c :: acc) (by simp)]
      simp
    · simp only [mapTokensGo, hw, Bool.false_eq_true, if_false, if_neg ha,
        List.takeWhile_cons, List.dropWhile_cons]
      simp [hw]

theorem mapTokens_cons_word (f : List Char → List Char) (c : Char) (cs : List Char)
    (h : isWordCharB c = true) :
    mapTokens f (c :: cs) =
      f (c :: cs.takeWhile isWordCharB) ++ mapTokens f (cs.dropWhile isWordCharB) := by
  unfold mapTokens
  simp only [mapTokensGo, h, if_true]
  rw [mapTokensGo_acc f cs [c] (by simp)]
  simp

/-! ### Claim C6: what scoring does to the caller's postings -/

/-- C6 (amended): scoring leaves every field of a posting unchanged except
`similarity`, which it overwrites in place with the clamped weighted final
score, and ranking returns exactly the scored postings (a permutation of the
mapped input). -/
theorem c6_amended_frame (content : String → String → Rat) (resume_data : ResumeData)
    (user_experience : Nat) (location_pref : String) (job : JobPosting)
    (jobs : List JobPosting) :
    (scoreJob content resume_data user_experience location_pref job).title = job.title
    ∧ (scoreJob content resume_data user_experience location_pref job).company = job.company
    ∧ (scoreJob content resume_data user_experience location_pref job).location = job.location
    ∧ (scoreJob content resume_data user_experience location_pref job).link = job.link
    ∧ (scoreJob content resume_data user_experience location_pref job).posted_date
        = job.posted_date
    ∧ (scoreJob content resume_data user_experience location_pref job).experience
        = job.experience
    ∧ (scoreJob content resume_data user_experience location_pref job).preference
        = job.preference
    ∧ (scoreJob content resume_data user_experience location_pref job).similarity =
        min 1 (calculate_skill_match_score resume_data.skills (jobTextOf job) * 0.4
          + calculate_experience_match user_experience (jobTextOf job) * 0.25
          + calculate_location_match location_pref job.location * 0.15
          + content (String.intercalate " " resume_data.skills) (jobTextOf job) * 0.2)
    ∧ (match_jobs content resume_data jobs user_experience location_pref).Perm
        (jobs.map (scoreJob content resume_data user_experience location_pref)) :=
  ⟨rfl, rfl, rfl, rfl, rfl, rfl, rfl,
   scoreJob_similarity content resume_data user_experience location_pref job,
   sortDesc_perm _⟩

/-- C6 (counterexample): the claim as stated says every field of the caller's
posting is unchanged when the core returns; but the core overwrites the
`similarity` field (here from 0 to 17/100). -/
theorem c6_counterexample :
    (match_jobs (fun _ _ => 0) (ResumeData.mk [] 0 "" "")
        [JobPosting.mk "t" "c" "bb" "k" "d" "e" "p" 0] 0 "aa").map
        (fun j => j.similarity) = [(17 : Rat)/100]
    ∧ (JobPosting.mk "t" "c" "bb" "k" "d" "e" "p" 0).similarity = 0
    ∧ ((17 : Rat)/100) ≠ 0 := by
  have hjt : jobTextOf (JobPosting.mk "t" "c" "bb" "k" "d" "e" "p" 0) = "t c bb e" := by
    decide
  have hskill : calculate_skill_match_score [] "t c bb e" = 0 := by
    simp [calculate_skill_match_score, catTable, skillStep, skillsInVocab]
  have hexp : calculate_experience_match 0 "t c bb e" = 0.5 := by
    have h1 : extractRequiredExp "t c bb e" = none := by decide
    have h2 : containsSub "senior" (asciiLower "t c bb e") = false := by decide
    have h3 : containsSub "mid" (asciiLower "t c bb e") = false := by decide
    have h4 : (containsSub "junior" (asciiLower "t c bb e")
        || containsSub "entry" (asciiLower "t c bb e")) = false := by decide
    unfold calculate_experience_match
    rw [h1]
    dsimp only
    rw [if_neg (by rw [h2]; simp), if_neg (by rw [h3]; simp), if_neg (by rw [h4]; simp)]
    rfl
  have hloc : calculate_location_match "aa" "bb" = 0.3 := by
    have h1 : containsSub (asciiLower "aa") (asciiLower "bb") = false := by decide
    have h2 : containsSub (asciiLower "bb") (asciiLower "aa") = false := by decide
    have h3 : sharesToken (asciiLower "aa") (asciiLower "bb") = false := by decide
    have h4 : containsSub "remote" (asciiLower "bb") = false := by decide
    simp [calculate_location_match, h1, h2, h3, h4]
  refine ⟨?_, rfl, by norm_num⟩
  show (sortDesc [scoreJob (fun _ _ => 0) (ResumeData.mk [] 0 "" "")
      0 "aa" (JobPosting.mk "t" "c" "bb" "k" "d" "e" "p" 0)]).map
      (fun j => j.similarity) = [(17 : Rat)/100]
  rw [show sortDesc [scoreJob (fun _ _ => 0) (ResumeData.mk [] 0 "" "")
      0 "aa" (JobPosting.mk "t" "c" "bb" "k" "d" "e" "p" 0)] =
      [scoreJob (fun _ _ => 0) (ResumeData.mk [] 0 "" "")
      0 "aa" (JobPosting.mk "t" "c" "bb" "k" "d" "e" "p" 0)] from rfl]
  rw [List.map_singleton, scoreJob_similarity, hjt]
  rw [show (ResumeData.mk ([] : List String) 0 "" "").skills = [] from rfl]
  rw [show (JobPosting.mk "t" "c" "bb" "k" "d" "e" "p" 0).location = "bb" from rfl]
  rw [hskill, hexp, hloc]
  norm_num [min_def]

/-! ### Claim C10: determinism -/

theorem skillsInVocab_perm (sk sk2 : List String) (h : sk.Perm sk2)
    (vocab : List String) :
    (skillsInVocab sk vocab).Perm (skillsInVocab sk2 vocab) :=
  (h.filter _).dedup

theorem skillStep_perm (sk sk2 : List String) (h : sk.Perm sk2) (jl : String)
    (acc : Rat × Rat) (cat : Rat × List String) :
    skillStep sk jl acc cat = skillStep sk2 jl acc cat := by
  unfold skillStep
  dsimp only
  have hp := skillsInVocab_perm sk sk2 h cat.2
  by_cases he : skillsInVocab sk cat.2 = []
  · have he2 : skillsInVocab sk2 cat.2 = [] := by
      have hl := hp.length_eq
      rw [he] at hl
      exact List.length_eq_zero.mp hl.symm
    rw [if_pos he, if_pos he2]
  · have he2 : ¬ skillsInVocab sk2 cat.2 = [] := by
      intro h2
      apply he
      have hl := hp.length_eq
      rw [h2] at hl
      exact List.length_eq_zero.mp hl
    rw [if_neg he, if_neg he2, hp.length_eq,
      hp.countP_eq (fun s => containsSub (asciiLower s) jl)]

theorem skillFold_permEq (sk sk2 : List String) (h : sk.Perm sk2) (jl : String) :
    ∀ (cats : List (Rat × List String)) (acc : Rat × Rat),
      cats.foldl (skillStep sk jl) acc = cats.foldl (skillStep sk2 jl) acc := by
  intro cats
  induction cats with
  | nil => intro acc; rfl
  | cons c cs ih =>
    intro acc
    simp only [List.foldl_cons]
    rw [skillStep_perm sk sk2 h jl acc c]
    exact ih _

theorem skill_score_perm (sk sk2 : List String) (t : String) (h : sk.Perm sk2) :
    calculate_skill_match_score sk t = calculate_skill_match_score sk2 t := by
  unfold calculate_skill_match_score
  dsimp only
  rw [skillFold_permEq sk sk2 h]

/-- C10: the matching pipeline is deterministic: with identical inputs two
runs produce identical ordered output; moreover the skill score does not
depend on the iteration order of the candidate's skill set (Python iterates
a `set`), i.e. it is invariant under permutation of the skill list. -/
theorem c10_determinism (content : String → String → Rat)
    (resume_data resume_data2 : ResumeData) (jobs jobs2 : List JobPosting)
    (user_experience : Nat) (location_pref : String)
    (h1 : resume_data = resume_data2) (h2 : jobs = jobs2) :
    match_jobs content resume_data jobs user_experience location_pref
      = match_jobs content resume_data2 jobs2 user_experience location_pref
    ∧ ∀ (sk sk2 : List String) (t : String), sk.Perm sk2 →
        calculate_skill_match_score sk t = calculate_skill_match_score sk2 t := by
  subst h1
  subst h2
  exact ⟨rfl, fun sk sk2 t hp => skill_score_perm sk sk2 t hp⟩

theorem c10_determinism_witness :
    match_jobs (fun _ _ => 0) (ResumeData.mk [] 0 "" "") [] 0 ""
      = match_jobs (fun _ _ => 0) (ResumeData.mk [] 0 "" "") [] 0 ""
    ∧ calculate_skill_match_score ["python", "sql"] "python"
      = calculate_skill_match_score ["sql", "python"] "python" :=
  ⟨(c10_determinism (fun _ _ => 0) (ResumeData.mk [] 0 "" "")
      (ResumeData.mk [] 0 "" "") [] [] 0 "" rfl rfl).1,
   (c10_determinism (fun _ _ => 0) (ResumeData.mk [] 0 "" "")
      (ResumeData.mk [] 0 "" "") [] [] 0 "" rfl rfl).2
      ["python", "sql"] ["sql", "python"] "python" (List.Perm.swap "sql" "python" [])⟩

/-! ### Claim C8: resume experience extraction -/

/-- C8 (amended): resume experience extraction tries the ordered patterns
`(\d+)\s*(?:\+\s*)?years?(?:\s+of)?\s+experience` and
`(?:worked|working)\s+(?:for|since)\s+(\d+)\s+years` in priority order (case
insensitively): if the first pattern matches anywhere its capture is
returned, even if the second pattern matches earlier in the text; if only
the second matches, its capture is returned; 0 is returned when neither
matches.  There is no `experience: <N>` pattern. -/
theorem c8_amended_extraction :
    (∀ t : String,
      (∀ n, searchFrom matchR1At ((asciiLower t).data) = some n →
        extract_experience_resume t = n)
      ∧ (searchFrom matchR1At ((asciiLower t).data) = none →
          ∀ n, searchFrom matchR2At ((asciiLower t).data) = some n →
            extract_experience_resume t = n)
      ∧ (searchFrom matchR1At ((asciiLower t).data) = none →
          searchFrom matchR2At ((asciiLower t).data) = none →
          extract_experience_resume t = 0))
    ∧ extract_experience_resume "worked for 2 years and 6 years of experience" = 6 := by
  constructor
  · intro t
    refine ⟨?_, ?_, ?_⟩
    · intro n h
      unfold extract_experience_resume
      dsimp only
      rw [h]
    · intro h1 n h2
      unfold extract_experience_resume
      dsimp only
      rw [h1, h2]
    · intro h1 h2
      unfold extract_experience_resume
      dsimp only
      rw [h1, h2]
  · decide

theorem c8_amended_extraction_witness :
    (searchFrom matchR1At ((asciiLower "9 years of experience").data) = some 9
      ∧ extract_experience_resume "9 years of experience" = 9)
    ∧ (searchFrom matchR1At ((asciiLower "worked for 2 years").data) = none
      ∧ searchFrom matchR2At ((asciiLower "worked for 2 years").data) = some 2
      ∧ extract_experience_resume "worked for 2 years" = 2) :=
  ⟨⟨by decide, (c8_amended_extraction.1 "9 years of experience").1 9 (by decide)⟩,
   ⟨by decide, by decide,
    (c8_amended_extraction.1 "worked for 2 years").2.1 (by decide) 2 (by decide)⟩⟩

/-- C8 (counterexample): the claim says a pattern of the form
`experience: <N>` is among the extraction patterns, so that an input whose
only marker is "experience: 7" yields 7; the code has no such pattern and
yields the default 0. -/
theorem c8_counterexample :
    extract_experience_resume "experience: 7" = 0 ∧ (0 : Nat) ≠ 7 := by
  constructor
  · decide
  · decide

/-! ### Claim C9: idempotence of `preprocess_text` -/

theorem not_upper_of_clean (c : Char) (h : isCleanChar c = true) : isUpperB c = false := by
  have h1 : isLowerB c = true ∨ isDigitB c = true ∨ isPySpace c = true := by
    simpa [isCleanChar, Bool.or_eq_true, or_assoc] using h
  rcases h1 with hl | hd | hs
  · simp only [isLowerB, decide_eq_true_eq] at hl
    simp only [isUpperB, decide_eq_false_iff_not, not_and]
    intro _ hz
    exact absurd (le_trans hl.1 hz) (by decide)
  · simp only [isDigitB, decide_eq_true_eq] at hd
    simp only [isUpperB, decide_eq_false_iff_not, not_and]
    intro ha _
    exact absurd (le_trans ha hd.2) (by decide)
  · have h2 : c = ' ' ∨ c = '\t' ∨ c = '\n' ∨ c = '\r' ∨ c = '\x0B' ∨ c = '\x0C' := by
      simpa [isPySpace, Bool.or_eq_true, or_assoc] using hs
    rcases h2 with rfl | rfl | rfl | rfl | rfl | rfl <;> decide

theorem isCleanChar_step1Char (c : Char) : isCleanChar (step1Char c) = true := by
  unfold step1Char
  dsimp only
  by_cases h : isCleanChar (lowerChar c) = true
  · rw [if_pos h]
    exact h
  · rw [if_neg h]
    decide

theorem step1Char_fix (c : Char) (h : isCleanChar c = true) : step1Char c = c := by
  have hl : lowerChar c = c := by
    unfold lowerChar
    rw [not_upper_of_clean c h]
    simp
  unfold step1Char
  dsimp only
  rw [hl, if_pos h]

theorem step1_clean (l : List Char) : ∀ c ∈ step1 l, isCleanChar c = true := by
  intro c hc
  obtain ⟨d, _, rfl⟩ := List.mem_map.mp hc
  exact isCleanChar_step1Char d

theorem step1_of_clean (l : List Char) (h : ∀ c ∈ l, isCleanChar c = true) :
    step1 l = l := by
  induction l with
  | nil => rfl
  | cons c cs ih =>
    unfold step1 at ih ⊢
    rw [List.map_cons, step1Char_fix c (h c (List.mem_cons_self c cs)),
      ih (fun d hd => h d (List.mem_cons_of_mem c hd))]

theorem tokenF_cases (w : List Char) :
    tokenF w = w ∨ tokenF w = yearsW ∨ tokenF w = seniorW ∨ tokenF w = juniorW
    ∨ tokenF w = experienceW ∨ tokenF w = developerW ∨ tokenF w = engineerW
    ∨ tokenF w = managerW := by
  unfold tokenF
  dsimp only
  split_ifs <;> simp

theorem tokenF_fix (w : List Char) : tokenF (tokenF w) = tokenF w := by
  rcases tokenF_cases w with h | h | h | h | h | h | h | h <;> rw [h]
  · exact h
  all_goals decide

theorem tokenF_word (w : List Char) (h : ∀ c ∈ w, isWordCharB c = true) :
    ∀ c ∈ tokenF w, isWordCharB c = true := by
  rcases tokenF_cases w with hw | hw | hw | hw | hw | hw | hw | hw <;> rw [hw]
  · exact h
  all_goals decide

theorem tokenF_clean (w : List Char) (h : ∀ c ∈ w, isCleanChar c = true) :
    ∀ c ∈ tokenF w, isCleanChar c = true := by
  rcases tokenF_cases w with hw | hw | hw | hw | hw | hw | hw | hw <;> rw [hw]
  · exact h
  all_goals decide

theorem dropWhile_head_not (p : Char → Bool) :
    ∀ (l : List Char) (c : Char) (cs : List Char),
      l.dropWhile p = c :: cs → p c = false := by
  intro l
  induction l with
  | nil => intro c cs h; cases h
  | cons a as ih =>
    intro c cs h
    by_cases hp : p a
    · rw [List.dropWhile_cons, if_pos hp] at h
      exact ih c cs h
    · rw [List.dropWhile_cons, if_neg hp] at h
      injection h with h1 _
      rw [← h1]
      exact Bool.eq_false_iff.mpr hp

theorem takeWhile_append_all (p : Char → Bool) (w r : List Char)
    (hw : ∀ c ∈ w, p c = true) : (w ++ r).takeWhile p = w ++ r.takeWhile p := by
  induction w with
  | nil => simp
  | cons a as ih =>
    rw [List.cons_append, List.takeWhile_cons, if_pos (hw a (List.mem_cons_self a as)),
      ih (fun c hc => hw c (List.mem_cons_of_mem a hc)), List.cons_append]

theorem dropWhile_append_all (p : Char → Bool) (w r : List Char)
    (hw : ∀ c ∈ w, p c = true) : (w ++ r).dropWhile p = r.dropWhile p := by
  induction w with
  | nil => simp
  | cons a as ih =>
    rw [List.cons_append, List.dropWhile_cons, if_pos (hw a (List.mem_cons_self a as))]
    exact ih (fun c hc => hw c (List.mem_cons_of_mem a hc))

theorem mapTokens_append_run (f : List Char → List Char) (w r : List Char)
    (hw : ∀ c ∈ w, isWordCharB c = true)
    (hr : ∀ (c : Char) (cs : List Char), r = c :: cs → isWordCharB c = false) :
    mapTokens f (w ++ r) = (if w = [] then [] else f w) ++ mapTokens f r := by
  cases w with
  | nil => simp
  | cons a as =>
    have htk : r.takeWhile isWordCharB = [] := by
      cases r with
      | nil => rfl
      | cons c cs => rw [List.takeWhile_cons, hr c cs rfl]; rfl
    have hdr : r.dropWhile isWordCharB = r := by
      cases r with
      | nil => rfl
      | cons c cs => rw [List.dropWhile_cons, hr c cs rfl]; rfl
    rw [List.cons_append, mapTokens_cons_word f a _ (hw a (List.mem_cons_self a as))]
    rw [takeWhile_append_all _ as r (fun c hc => hw c (List.mem_cons_of_mem a hc)), htk]
    rw [dropWhile_append_all _ as r (fun c hc => hw c (List.mem_cons_of_mem a hc)), hdr]
    rw [if_neg (by simp), List.append_nil]

theorem mapTokens_idem_aux (f : List Char → List Char)
    (hfix : ∀ w, f (f w) = f w)
    (hword : ∀ w, (∀ c ∈ w, isWordCharB c = true) → ∀ c ∈ f w, isWordCharB c = true) :
    ∀ (n : Nat) (l : List Char), l.length ≤ n →
      mapTokens f (mapTokens f l) = mapTokens f l := by
  intro n
  induction n with
  | zero =>
    intro l h
    rw [List.eq_nil_of_length_eq_zero (Nat.le_zero.mp h)]
    rfl
  | succ n ih =>
    intro l hl
    cases l with
    | nil => rfl
    | cons c cs =>
      have hcs : cs.length ≤ n := Nat.succ_le_succ_iff.mp hl
      by_cases hw : isWordCharB c = true
      · rw [mapTokens_cons_word f c cs hw]
        have hrun : ∀ d ∈ c :: cs.takeWhile isWordCharB, isWordCharB d = true := by
          intro d hd
          rcases List.mem_cons.mp hd with rfl | hd
          · exact hw
          · exact List.mem_takeWhile_imp hd
        have hfw := hword _ hrun
        have hrest_head : ∀ (d : Char) (ds : List Char),
            mapTokens f (cs.dropWhile isWordCharB) = d :: ds → isWordCharB d = false := by
          intro d ds h
          cases hrest : cs.dropWhile isWordCharB with
          | nil => rw [hrest, mapTokens_nil] at h; cases h
          | cons e es =>
            have he : isWordCharB e = false := dropWhile_head_not _ cs e es hrest
            rw [hrest, mapTokens_cons_delim f e es he] at h
            injection h with h1 _
            rw [← h1]
            exact he
        rw [mapTokens_append_run f _ _ hfw hrest_head]
        rw [ih _ (le_trans (length_dropWhile_le _ cs) hcs)]
        by_cases hfe : f (c :: cs.takeWhile isWordCharB) = []
        · rw [if_pos hfe, hfe]
        · rw [if_neg hfe, hfix]
      · have hw2 : isWordCharB c = false := Bool.eq_false_iff.mpr hw
        rw [mapTokens_cons_delim f c cs hw2, mapTokens_cons_delim f c _ hw2, ih cs hcs]

theorem mapTokens_idem (f : List Char → List Char)
    (hfix : ∀ w, f (f w) = f w)
    (hword : ∀ w, (∀ c ∈ w, isWordCharB c = true) → ∀ c ∈ f w, isWordCharB c = true)
    (l : List Char) : mapTokens f (mapTokens f l) = mapTokens f l :=
  mapTokens_idem_aux f hfix hword l.length l le_rfl

theorem mapTokens_clean_aux (f : List Char → List Char)
    (hf : ∀ w, (∀ c ∈ w, isCleanChar c = true) → ∀ c ∈ f w, isCleanChar c = true) :
    ∀ (n : Nat) (l : List Char), l.length ≤ n → (∀ c ∈ l, isCleanChar c = true) →
      ∀ c ∈ mapTokens f l, isCleanChar c = true := by
  intro n
  induction n with
  | zero =>
    intro l h _
    rw [List.eq_nil_of_length_eq_zero (Nat.le_zero.mp h)]
    intro c hc
    cases hc
  | succ n ih =>
    intro l hl hcl
    cases l with
    | nil => intro c hc; cases hc
    | cons c cs =>
      have hcs : cs.length ≤ n := Nat.succ_le_succ_iff.mp hl
      by_cases hw : isWordCharB c = true
      · rw [mapTokens_cons_word f c cs hw]
        intro d hd
        rcases List.mem_append.mp hd with hd | hd
        · refine hf (c :: cs.takeWhile isWordCharB) ?_ d hd
          intro e he
          rcases List.mem_cons.mp he with rfl | he
          · exact hcl e (List.mem_cons_self e cs)
          · exact hcl e (List.mem_cons_of_mem c ((List.takeWhile_sublist _).subset he))
        · refine ih _ (le_trans (length_dropWhile_le _ cs) hcs) ?_ d hd
          intro e he
          exact hcl e (List.mem_cons_of_mem c ((List.dropWhile_sublist _).subset he))
      · have hw2 : isWordCharB c = false := Bool.eq_false_iff.mpr hw
        rw [mapTokens_cons_delim f c cs hw2]
        intro d hd
        rcases List.mem_cons.mp hd with rfl | hd
        · exact hcl d (List.mem_cons_self d cs)
        · exact ih cs hcs (fun e he => hcl e (List.mem_cons_of_mem c he)) d hd

theorem mapTokens_clean (f : List Char → List Char)
    (hf : ∀ w, (∀ c ∈ w, isCleanChar c = true) → ∀ c ∈ f w, isCleanChar c = true)
    (l : List Char) (h : ∀ c ∈ l, isCleanChar c = true) :
    ∀ c ∈ mapTokens f l, isCleanChar c = true :=
  mapTokens_clean_aux f hf l.length l le_rfl h

/-- C9: text normalization is idempotent:
`preprocess_text (preprocess_text x) = preprocess_text x` for every string. -/
theorem c9_preprocess_idempotent (x : String) :
    preprocess_text (preprocess_text x) = preprocess_text x := by
  unfold preprocess_text
  have hclean : ∀ c ∈ mapTokens tokenF (step1 x.data), isCleanChar c = true :=
    mapTokens_clean tokenF tokenF_clean (step1 x.data) (step1_clean x.data)
  rw [show (String.mk (mapTokens tokenF (step1 x.data))).data
      = mapTokens tokenF (step1 x.data) from rfl]
  rw [step1_of_clean _ hclean]
  rw [mapTokens_idem tokenF tokenF_fix tokenF_word]

/-! ### Claim C7: the similarity engine

The TF-IDF vectorizer and cosine similarity are computed by the external
sklearn library (configured at src/jobmatch_app.py:213-218 and invoked,
guarded by `try/except` defaulting to 0, at src/jobmatch_app.py:362-369);
that code is not part of this repository, so the engine is modelled from the
specification here. -/

/-- Modelled from the spec: the vectorizer's tokens (sklearn default token
pattern: maximal word-character runs of length at least 2, lowercased). -/
def tfTokens (s : String) : List String :=
  (((asciiLower s).data.splitOnP (fun c => !isWordCharB c)).filter
    (fun r => 2 ≤ r.length)).map (fun r => String.mk r)

/-- Modelled from the spec: bigrams of adjacent tokens (`ngram_range=(1,2)`). -/
def tfBigrams : List String → List String
  | a :: b :: rest => (a ++ " " ++ b) :: tfBigrams (b :: rest)
  | _ => []

/-- Modelled from the spec: an (abbreviated) English stop-word list
(`stop_words="english"`). -/
def tfStopList : List String :=
  ["a", "an", "and", "are", "as", "at", "be", "by", "for", "from", "has",
   "in", "is", "it", "its", "of", "on", "that", "the", "to", "was", "were",
   "will", "with"]

/-- Modelled from the spec: the terms of one document: stop-filtered unigrams
and the bigrams built from them. -/
def tfTerms (s : String) : List String :=
  let toks := (tfTokens s).filter (fun t => !tfStopList.contains t)
  toks ++ tfBigrams toks

/-- Modelled from the spec: the surviving vocabulary under `min_df=2` over
exactly the two documents: the distinct terms occurring in both. -/
def sharedVocab (cand job : String) : List String :=
  ((tfTerms cand).filter (fun t => (tfTerms job).contains t)).dedup

/-- Term frequency of `t` in a document. -/
def tfCount (t : String) (doc : String) : Rat := ((tfTerms doc).count t : Rat)

/-- Dot product of the two term-frequency vectors over the shared vocabulary. -/
def dotTF (cand job : String) : Rat :=
  ((sharedVocab cand job).map (fun t => tfCount t cand * tfCount t job)).sum

/-- Squared norm of the candidate vector over the shared vocabulary. -/
def normSqCand (cand job : String) : Rat :=
  ((sharedVocab cand job).map (fun t => (tfCount t cand) ^ 2)).sum

/-- Squared norm of the job vector over the shared vocabulary. -/
def normSqJob (cand job : String) : Rat :=
  ((sharedVocab cand job).map (fun t => (tfCount t job) ^ 2)).sum

/-- Modelled from the spec: the squared cosine similarity of the two
term-frequency vectors (squared to stay in ℚ; the cosine itself is its
nonnegative square root, so it is 0 exactly when this is 0), with the
degenerate empty-vocabulary case explicitly guarded to 0, which is what the
`except` branch of the source yields when sklearn raises on an empty
vocabulary. -/
def contentScoreSq (cand job : String) : Rat :=
  if sharedVocab cand job = [] then 0
  else (dotTF cand job) ^ 2 / (normSqCand cand job * normSqJob cand job)

theorem list_inner_sq_le (g h : String → Rat) (hg : ∀ x, 0 ≤ g x)
    (hh : ∀ x, 0 ≤ h x) :
    ∀ v : List String,
      ((v.map (fun t => g t * h t)).sum) ^ 2 ≤
        ((v.map (fun t => (g t) ^ 2)).sum) * ((v.map (fun t => (h t) ^ 2)).sum) := by
  intro v
  induction v with
  | nil => simp
  | cons x xs ih =>
    simp only [List.map_cons, List.sum_cons]
    set S := (xs.map (fun t => g t * h t)).sum with hSdef
    set A := (xs.map (fun t => (g t) ^ 2)).sum with hAdef
    set B := (xs.map (fun t => (h t) ^ 2)).sum with hBdef
    have hS : 0 ≤ S := by
      rw [hSdef]
      refine List.sum_nonneg ?_
      intro y hy
      obtain ⟨t, _, rfl⟩ := List.mem_map.mp hy
      exact mul_nonneg (hg t) (hh t)
    have hA : 0 ≤ A := by
      rw [hAdef]
      refine List.sum_nonneg ?_
      intro y hy
      obtain ⟨t, _, rfl⟩ := List.mem_map.mp hy
      exact sq_nonneg _
    have hB : 0 ≤ B := by
      rw [hBdef]
      refine List.sum_nonneg ?_
      intro y hy
      obtain ⟨t, _, rfl⟩ := List.mem_map.mp hy
      exact sq_nonneg _
    have h1 : (2 * (g x * h x) * S) ^ 2 ≤ ((g x) ^ 2 * B + (h x) ^ 2 * A) ^ 2 := by
      nlinarith [sq_nonneg ((g x) ^ 2 * B - (h x) ^ 2 * A),
        mul_nonneg (sq_nonneg (g x * h x)) (sub_nonneg.mpr ih)]
    have ha : 0 ≤ 2 * (g x * h x) * S :=
      mul_nonneg (mul_nonneg (by norm_num) (mul_nonneg (hg x) (hh x))) hS
    have hb : 0 ≤ (g x) ^ 2 * B + (h x) ^ 2 * A :=
      add_nonneg (mul_nonneg (sq_nonneg _) hB) (mul_nonneg (sq_nonneg _) hA)
    have h2 : 2 * (g x * h x) * S ≤ (g x) ^ 2 * B + (h x) ^ 2 * A :=
      (pow_le_pow_iff_left₀ ha hb two_ne_zero).mp h1
    nlinarith [ih, h2]

theorem count_pos_of_mem_sharedVocab (cand job t : String)
    (h : t ∈ sharedVocab cand job) :
    1 ≤ tfCount t cand ∧ 1 ≤ tfCount t job := by
  unfold sharedVocab at h
  have h3 := List.mem_filter.mp (List.mem_dedup.mp h)
  constructor
  · unfold tfCount
    have hp : 0 < (tfTerms cand).count t := List.count_pos_iff.mpr h3.1
    exact_mod_cast hp
  · unfold tfCount
    have hmem : t ∈ tfTerms job := by simpa using h3.2
    have hp : 0 < (tfTerms job).count t := List.count_pos_iff.mpr hmem
    exact_mod_cast hp

theorem normSq_pos (cand job : String) (hne : sharedVocab cand job ≠ []) :
    0 < normSqCand cand job ∧ 0 < normSqJob cand job := by
  obtain ⟨t, rest, hv⟩ : ∃ t rest, sharedVocab cand job = t :: rest := by
    cases hv : sharedVocab cand job with
    | nil => exact absurd hv hne
    | cons t rest => exact ⟨t, rest, rfl⟩
  have hmem : t ∈ sharedVocab cand job := by
    rw [hv]
    exact List.mem_cons_self t rest
  have hc := count_pos_of_mem_sharedVocab cand job t hmem
  have hrest : ∀ (d : String → Rat), 0 ≤ (rest.map (fun u => (d u) ^ 2)).sum := by
    intro d
    refine List.sum_nonneg ?_
    intro y hy
    obtain ⟨u, _, rfl⟩ := List.mem_map.mp hy
    exact sq_nonneg _
  constructor
  · unfold normSqCand
    rw [hv]
    simp only [List.map_cons, List.sum_cons]
    have h1 : 0 < (tfCount t cand) ^ 2 :=
      pow_pos (lt_of_lt_of_le zero_lt_one hc.1) 2
    have h2 := hrest (fun u => tfCount u cand)
    linarith
  · unfold normSqJob
    rw [hv]
    simp only [List.map_cons, List.sum_cons]
    have h1 : 0 < (tfCount t job) ^ 2 :=
      pow_pos (lt_of_lt_of_le zero_lt_one hc.2) 2
    have h2 := hrest (fun u => tfCount u job)
    linarith

/-- C7: the content similarity is exactly 0 in every degenerate case (empty
shared vocabulary, in particular when either document is empty after
filtering), and it is a well-defined value in [0, 1] for all inputs (never
undefined: the degenerate case is explicitly 0, and otherwise the squared
cosine is bounded by Cauchy-Schwarz; the cosine is 0 exactly when its square
is 0). -/
theorem c7_content_similarity (cand job : String) :
    (sharedVocab cand job = [] → contentScoreSq cand job = 0)
    ∧ (tfTerms cand = [] → contentScoreSq cand job = 0)
    ∧ (tfTerms job = [] → contentScoreSq cand job = 0)
    ∧ 0 ≤ contentScoreSq cand job
    ∧ contentScoreSq cand job ≤ 1 := by
  have hcand : tfTerms cand = [] → sharedVocab cand job = [] := by
    intro h
    simp [sharedVocab, h]
  have hjob : tfTerms job = [] → sharedVocab cand job = [] := by
    intro h
    simp [sharedVocab, h, List.filter_eq_nil_iff]
  have hzero : sharedVocab cand job = [] → contentScoreSq cand job = 0 := by
    intro h
    simp [contentScoreSq, h]
  refine ⟨hzero, fun h => hzero (hcand h), fun h => hzero (hjob h), ?_, ?_⟩
  · unfold contentScoreSq
    split_ifs with h
    · exact le_rfl
    · have hn := normSq_pos cand job h
      exact div_nonneg (sq_nonneg _) (mul_pos hn.1 hn.2).le
  · unfold contentScoreSq
    split_ifs with h
    · norm_num
    · have hn := normSq_pos cand job h
      rw [div_le_one (mul_pos hn.1 hn.2)]
      exact list_inner_sq_le (fun t => tfCount t cand) (fun t => tfCount t job)
        (fun t => Nat.cast_nonneg _) (fun t => Nat.cast_nonneg _) (sharedVocab cand job)

theorem c7_content_similarity_witness :
    sharedVocab "" "" = [] ∧ contentScoreSq "" "" = 0 :=
  ⟨by decide, (c7_content_similarity "" "").1 (by decide)⟩
